import Mathlib

/-!
# Filesystem primitives of ignition-common (`src/FilesystemBoost.cc`)

A shallow embedding of the path utilities and of the directory iterator
`DirIter`, in both of its compile-time variants (`#ifndef _WIN32` and the
Windows branch), followed by theorems about them.

Conventions of the embedding:
* `std::string` is `String`; loops over a string run over its character list.
* The compile-time platform switch is the parameter `Platform`.
* The operating system is an explicit argument: a directory stream is the list
  of raw entry names it has not yet returned, and the Win32 calls used by
  `exists`/`isDirectory` are the fields of `Win32`.
* The field `end` of `DirIterPrivate` is called `atEnd` (`end` is reserved).
-/

set_option linter.dupNamespace false

namespace ignition.common

/-! ## Data model -/

/-- The compile-time platform switch (`#ifndef _WIN32` / `#else`). -/
inductive Platform where
  | posix
  | windows
  deriving DecidableEq

/-- The constant `preferred_separator` of the two branches. -/
def preferred_separator : Platform → Char
  | .posix => '/'
  | .windows => '\\'

/-- The opaque `void *handle` as the iterator holds it between calls: never
assigned since `new DirIterPrivate`, null, or an open directory stream,
represented by the raw entry names it will still return, in order. -/
inductive Handle where
  | uninitialized
  | nullptr
  | stream (pending : List String)
  deriving DecidableEq

/-- The class `DirIterPrivate`; `atEnd` is its member `end`. -/
structure DirIterPrivate where
  current : String
  dirname : String
  handle : Handle
  atEnd : Bool
  deriving DecidableEq

/-! ## Platform independent part -/

/-- The function `separator`: `_p + preferred_separator`. -/
def separator (pl : Platform) (_p : String) : String :=
  _p.push (preferred_separator pl)

/-- The algorithm `std::replace(first, last, old_value, new_value)`. -/
def std_replace (s : List Char) (old_value new_value : Char) : List Char :=
  s.map (fun c => if c = old_value then new_value else c)

/-- The function `changeFromUnixPath`, as a function of the string it mutates. -/
def changeFromUnixPath (pl : Platform) (_path : String) : String :=
  if '/' = preferred_separator pl then _path
  else String.mk (std_replace _path.data '/' (preferred_separator pl))

/-- The function `copyFromUnixPath`. -/
def copyFromUnixPath (pl : Platform) (_path : String) : String :=
  changeFromUnixPath pl _path

/-- The function `changeToUnixPath`, as a function of the string it mutates. -/
def changeToUnixPath (pl : Platform) (_path : String) : String :=
  if '/' = preferred_separator pl then _path
  else String.mk (std_replace _path.data (preferred_separator pl) '/')

/-- The function `copyToUnixPath`. -/
def copyToUnixPath (pl : Platform) (_path : String) : String :=
  changeToUnixPath pl _path

/-- The `for` loop of `basename`. The first argument is `_path[i ..]`, the
characters not yet visited, so `i == _path.length() - 1` holds exactly when
the tail after the current character is empty; the other two are the locals
`last_was_slash` and `basename`. -/
def basenameLoop (sep : Char) : List Char → Bool → List Char → List Char
  | [], _, basename => basename
  | c :: rest, last_was_slash, basename =>
    if c = sep then
      if rest.isEmpty then
        -- break, after the special case of an empty `basename`
        if basename.length = 0 then basename ++ [sep] else basename
      else
        basenameLoop sep rest true basename
    else
      basenameLoop sep rest false ((if last_was_slash then [] else basename) ++ [c])

/-- The function `basename`. -/
def basename (pl : Platform) (_path : String) : String :=
  String.mk (basenameLoop (preferred_separator pl) _path.data false [])

/-- The default constructor `DirIter::DirIter()`: the end sentinel. -/
def DirIter.DirIter : DirIterPrivate :=
  { current := "", dirname := "", handle := .nullptr, atEnd := true }

/-- The operator `DirIter::operator*`: `dirname + preferred_separator + current`. -/
def DirIter.operatorStar (pl : Platform) (it : DirIterPrivate) : String :=
  it.dirname.push (preferred_separator pl) ++ it.current

/-- The operator `DirIter::operator!=`: `end != _other.end`. -/
def DirIter.operatorNe (it _other : DirIterPrivate) : Bool :=
  it.atEnd != _other.atEnd

/-! ## POSIX branch (`#ifndef _WIN32`) -/

namespace Posix

/-- The body of `DirIter::Next` once the stream is known to be open: the
`while (true)` loop around `readdir`, which returns the head of the pending
entries, or null when none is left. -/
def DirIter.NextLoop (it : DirIterPrivate) : List String → DirIterPrivate
  | [] => { it with atEnd := true, current := "", handle := .stream [] }
  | d_name :: pending =>
    if d_name ≠ "." ∧ d_name ≠ ".." then
      { it with current := d_name, handle := .stream pending }
    else
      DirIter.NextLoop it pending

/-- The method `DirIter::Next`. Calling `readdir` on a handle that is not an
open stream is undefined in C, hence `none`. -/
def DirIter.Next (it : DirIterPrivate) : Option DirIterPrivate :=
  match it.handle with
  | .stream pending => some (DirIter.NextLoop it pending)
  | _ => none

/-- The constructor `DirIter::DirIter(const std::string &_in)`. The argument
`opendir` is the system call: `none` is the null pointer, `some raw` an open
stream that will return the entry names `raw`. -/
def DirIter.DirIter (opendir : String → Option (List String)) (_in : String) :
    Option DirIterPrivate :=
  match opendir _in with
  | none =>
    some { dirname := _in, current := "", handle := .nullptr, atEnd := true }
  | some raw =>
    DirIter.Next { dirname := _in, current := "", handle := .stream raw, atEnd := false }

/-- The operator `DirIter::operator++`. -/
def DirIter.operatorInc (it : DirIterPrivate) : Option DirIterPrivate :=
  DirIter.Next it

/-- The caller loop `for (; it != DirIter(); ++it) yield *it`, one unit of fuel
per evaluation of the loop condition. The result is the list of yielded
strings and the iterator on which the condition failed; `none` means that the
fuel ran out or that `Next` was undefined. -/
def forLoop : Nat → DirIterPrivate → Option (List String × DirIterPrivate)
  | 0, _ => none
  | fuel + 1, it =>
    if ignition.common.DirIter.operatorNe it ignition.common.DirIter.DirIter then
      match DirIter.operatorInc it with
      | none => none
      | some next =>
        match forLoop fuel next with
        | none => none
        | some (yielded, last) =>
          some (ignition.common.DirIter.operatorStar .posix it :: yielded, last)
    else
      some ([], it)

/-- The whole loop `for (DirIter it(d); it != DirIter(); ++it) yield *it`. -/
def enumerate (opendir : String → Option (List String)) (d : String) (fuel : Nat) :
    Option (List String × DirIterPrivate) :=
  match DirIter.DirIter opendir d with
  | none => none
  | some it => forLoop fuel it

end Posix

/-! ## Windows branch -/

namespace Windows

/-- Error code of `winerror.h`, like the ten that follow. -/
def ERROR_FILE_NOT_FOUND : Int := 2
/-- See `ERROR_FILE_NOT_FOUND`. -/
def ERROR_PATH_NOT_FOUND : Int := 3
/-- See `ERROR_FILE_NOT_FOUND`. -/
def ERROR_ACCESS_DENIED : Int := 5
/-- See `ERROR_FILE_NOT_FOUND`. -/
def ERROR_INVALID_DRIVE : Int := 15
/-- See `ERROR_FILE_NOT_FOUND`. -/
def ERROR_NOT_READY : Int := 21
/-- See `ERROR_FILE_NOT_FOUND`. -/
def ERROR_SHARING_VIOLATION : Int := 32
/-- See `ERROR_FILE_NOT_FOUND`. -/
def ERROR_BAD_NETPATH : Int := 53
/-- See `ERROR_FILE_NOT_FOUND`. -/
def ERROR_INVALID_PARAMETER : Int := 87
/-- See `ERROR_FILE_NOT_FOUND`. -/
def ERROR_INVALID_NAME : Int := 123
/-- See `ERROR_FILE_NOT_FOUND`. -/
def ERROR_BAD_PATHNAME : Int := 161
/-- See `ERROR_FILE_NOT_FOUND`. -/
def ERROR_IO_DEVICE : Int := 1117

/-- Attribute bit of `winnt.h`. -/
def FILE_ATTRIBUTE_DIRECTORY : Nat := 0x10
/-- Attribute bit of `winnt.h`. -/
def FILE_ATTRIBUTE_REPARSE_POINT : Nat := 0x400

/-- The conversion `int errval(::GetLastError())` of a 32-bit `DWORD`. -/
def toInt32 (dword : Nat) : Int :=
  if dword % 2 ^ 32 < 2 ^ 31 then (dword % 2 ^ 32 : Nat) else (dword % 2 ^ 32 : Nat) - 2 ^ 32

/-- The function `not_found_error`. -/
def not_found_error (_errval : Int) : Bool :=
  _errval == ERROR_FILE_NOT_FOUND
    || _errval == ERROR_PATH_NOT_FOUND
    || _errval == ERROR_INVALID_NAME
    || _errval == ERROR_INVALID_DRIVE
    || _errval == ERROR_NOT_READY
    || _errval == ERROR_INVALID_PARAMETER
    || _errval == ERROR_BAD_PATHNAME
    || _errval == ERROR_BAD_NETPATH

/-- The function `process_status_failure`; its argument is the `DWORD` that
`::GetLastError()` returns at the call. -/
def process_status_failure (GetLastError : Nat) : Bool :=
  let errval := toInt32 GetLastError
  if not_found_error errval then false
  else if errval == ERROR_SHARING_VIOLATION then true
  else false

/-- The Win32 calls made by `internal_check_path`, as functions of the path. -/
structure Win32 where
  /-- The `DWORD` returned by `GetFileAttributesA`; `0xFFFFFFFF` on failure. -/
  GetFileAttributesA : String → Nat
  /-- The value of `GetLastError()` after `GetFileAttributesA` failed. -/
  attributesLastError : String → Nat
  /-- Whether the handle returned by `create_file_handle` (`CreateFileA` with
  `OPEN_EXISTING`) differs from `INVALID_HANDLE_VALUE`. -/
  create_file_handle : String → Bool
  /-- The value of `GetLastError()` after that `CreateFileA` failed. -/
  createFileLastError : String → Nat
  /-- The result of `is_reparse_point_a_symlink`. -/
  is_reparse_point_a_symlink : String → Bool

/-- The function `internal_check_path`: the returned pair is the result and
the value left in the out-parameter `attr`. -/
def internal_check_path (os : Win32) (_path : String) : Bool × Nat :=
  let attr := os.GetFileAttributesA _path % 2 ^ 32
  if attr = 0xFFFFFFFF then
    (process_status_failure (os.attributesLastError _path), attr)
  else if attr &&& FILE_ATTRIBUTE_REPARSE_POINT ≠ 0 then
    if !os.create_file_handle _path then
      (process_status_failure (os.createFileLastError _path), attr)
    else if !os.is_reparse_point_a_symlink _path then
      (true, attr)
    else
      (true, attr)
  else
    (true, attr)

/-- The function `exists`. -/
def exists_ (os : Win32) (_path : String) : Bool :=
  (internal_check_path os _path).1

/-- The function `isDirectory`. -/
def isDirectory (os : Win32) (_path : String) : Bool :=
  let r := internal_check_path os _path
  if r.1 then r.2 &&& FILE_ATTRIBUTE_DIRECTORY ≠ 0 else false

/-- The search pattern `dirpath` built by the constructor from a non-empty
`_in`. -/
def dirpath (_in : String) : String :=
  _in ++
    (if _in.isEmpty
        ∨ (_in.data.getLast? ≠ some '\\'
            ∧ _in.data.getLast? ≠ some '/'
            ∧ _in.data.getLast? ≠ some ':')
      then "\\*" else "*")

/-- The `while` loop of the constructor. The state is the pair of
`dataPtr->handle` and `data.cFileName`, which is what a successful
`FindFirstFileA` returns: `some (name, pending)` is a valid search handle
whose first entry is `name` and that will still return `pending`; `none` is
`INVALID_HANDLE_VALUE`. One unit of fuel per execution of the loop body. -/
def DirIter.openLoop (FindFirstFileA : String → Option (String × List String))
    (dirpath : String) :
    Nat → Option (String × List String) → Option (Option (String × List String))
  | _, none => some none
  | fuel, some (cFileName, pending) =>
    if cFileName = "." ∨ cFileName = ".." then
      match fuel with
      | 0 => none
      | fuel + 1 => DirIter.openLoop FindFirstFileA dirpath fuel (FindFirstFileA dirpath)
    else
      some (some (cFileName, pending))

/-- The constructor `DirIter::DirIter(const std::string &_in)`; `none` means
that the fuel of the `while` loop ran out. -/
def DirIter.DirIter (FindFirstFileA : String → Option (String × List String))
    (fuel : Nat) (_in : String) : Option DirIterPrivate :=
  if _in.isEmpty then
    -- early return: `handle` has not been assigned
    some { dirname := _in, current := "", handle := .uninitialized, atEnd := true }
  else
    match DirIter.openLoop FindFirstFileA (dirpath _in) fuel (FindFirstFileA (dirpath _in)) with
    | none => none
    | some none =>
      some { dirname := _in, current := "", handle := .nullptr, atEnd := true }
    | some (some (cFileName, pending)) =>
      some { dirname := _in, current := cFileName, handle := .stream pending, atEnd := false }

/-- The call `FindNextFileA(handle, &data)`: the next raw entry name and the
advanced stream, or `none` when the call returns 0 (nothing left, or no valid
search handle). -/
def FindNextFileA : Handle → Option (String × Handle)
  | .stream (cFileName :: pending) => some (cFileName, .stream pending)
  | _ => none

/-- The method `DirIter::Next`. -/
def DirIter.Next (it : DirIterPrivate) : DirIterPrivate :=
  match FindNextFileA it.handle with
  | none => { it with atEnd := true, current := "" }
  | some (cFileName, h) => { it with current := cFileName, handle := h }

/-- The operator `DirIter::operator++`. -/
def DirIter.operatorInc (it : DirIterPrivate) : DirIterPrivate :=
  DirIter.Next it

/-- The caller loop `for (; it != DirIter(); ++it) yield *it` on this branch,
one unit of fuel per evaluation of the loop condition. -/
def forLoop : Nat → DirIterPrivate → Option (List String × DirIterPrivate)
  | 0, _ => none
  | fuel + 1, it =>
    if ignition.common.DirIter.operatorNe it ignition.common.DirIter.DirIter then
      match forLoop fuel (DirIter.operatorInc it) with
      | none => none
      | some (yielded, last) =>
        some (ignition.common.DirIter.operatorStar .windows it :: yielded, last)
    else
      some ([], it)

end Windows

/-! ## Vocabulary of the statements and concrete inputs -/

/-- The entries the iterator is meant to report: everything but `.` and `..`. -/
def realEntries (raw : List String) : List String :=
  raw.filter (fun n => n ≠ "." ∧ n ≠ "..")

/-- The iterator on which a POSIX enumeration of `d` stops. -/
def posixExhausted (d : String) : DirIterPrivate :=
  { dirname := d, current := "", handle := .stream [], atEnd := true }

/-- A POSIX `opendir` that knows one directory, `dir`, whose stream returns
`.`, `..`, `x`, `y`. -/
def sampleOpendir : String → Option (List String) :=
  fun p => if p = "dir" then some [".", "..", "x", "y"] else none

/-- An iterator positioned on the entry `x` of `dir`. -/
def positionedOnX : DirIterPrivate :=
  { dirname := "dir", current := "x", handle := .stream ["y"], atEnd := false }

/-- An iterator positioned on the entry `y` of `dir`. -/
def positionedOnY : DirIterPrivate :=
  { dirname := "dir", current := "y", handle := .stream [], atEnd := false }

/-- A Win32 state in which the attribute query of every path fails with
`ERROR_SHARING_VIOLATION` (32), as it does for a file locked by another
process. -/
def lockedFile : Windows.Win32 :=
  { GetFileAttributesA := fun _ => 0xFFFFFFFF
    attributesLastError := fun _ => 32
    create_file_handle := fun _ => false
    createFileLastError := fun _ => 32
    is_reparse_point_a_symlink := fun _ => false }

/-- A Win32 state in which the attribute query of every path fails with
`ERROR_ACCESS_DENIED` (5). -/
def deniedFile : Windows.Win32 :=
  { GetFileAttributesA := fun _ => 0xFFFFFFFF
    attributesLastError := fun _ => 5
    create_file_handle := fun _ => false
    createFileLastError := fun _ => 5
    is_reparse_point_a_symlink := fun _ => false }

/-- A Win32 state in which every path is a directory reparse point (attributes
`FILE_ATTRIBUTE_DIRECTORY | FILE_ATTRIBUTE_REPARSE_POINT`) that cannot be
opened: `CreateFileA` fails with `ERROR_SHARING_VIOLATION`. -/
def lockedLink : Windows.Win32 :=
  { GetFileAttributesA := fun _ => 0x410
    attributesLastError := fun _ => 0
    create_file_handle := fun _ => false
    createFileLastError := fun _ => 32
    is_reparse_point_a_symlink := fun _ => false }

/-- A `FindFirstFileA` for an ordinary directory: every search starts at the
entry `.`, followed by `..` and `a.txt`. -/
def ordinaryFindFirstFileA : String → Option (String × List String) :=
  fun _ => some (".", ["..", "a.txt"])

/-- A `FindFirstFileA` that finds nothing. -/
def failingFindFirstFileA : String → Option (String × List String) :=
  fun _ => none

/-- An iterator of the Windows branch positioned on `a.txt`, whose search
handle will next return `..` and then `b.txt`. -/
def beforeDotDot : DirIterPrivate :=
  { dirname := "C:\\dir", current := "a.txt", handle := .stream ["..", "b.txt"],
    atEnd := false }

/-- The scan that the specification describes for `basename`, on the
characters not yet visited and the running segment: a character other than the
separator is appended to the segment; a separator that is not the final
character resets the segment to empty at once; a separator that is the final
character stops the scan, with the single separator as result if the segment
is empty and the segment otherwise; at the end of the path the result is the
segment. -/
def specScanLoop (sep : Char) : List Char → List Char → List Char
  | [], segment => segment
  | c :: rest, segment =>
    if c = sep then
      if rest.isEmpty then
        if segment.isEmpty then [sep] else segment
      else
        specScanLoop sep rest []
    else
      specScanLoop sep rest (segment ++ [c])

/-- The result of the specification's scan on a path, the segment starting
empty. -/
def specScan (pl : Platform) (_path : String) : String :=
  String.mk (specScanLoop (preferred_separator pl) _path.data [])

end ignition.common

/-! ## Theorems -/

namespace ignition.common

theorem push_eq_append (d : String) (c : Char) : d.push c = d ++ String.mk [c] := by
  apply String.ext
  simp [String.push, String.append]

theorem posix_operatorStar_eq (d n : String) (h : Handle) (e : Bool) :
    DirIter.operatorStar .posix { dirname := d, current := n, handle := h, atEnd := e }
      = d ++ "/" ++ n := by
  simp only [DirIter.operatorStar, preferred_separator, push_eq_append]

theorem realEntries_cons_of_real (e : String) (rest : List String)
    (he : e ≠ "." ∧ e ≠ "..") : realEntries (e :: rest) = e :: realEntries rest := by
  simp only [realEntries]
  rw [List.filter_cons_of_pos]
  simpa using he

theorem realEntries_cons_of_dot (e : String) (rest : List String)
    (he : ¬ (e ≠ "." ∧ e ≠ "..")) : realEntries (e :: rest) = realEntries rest := by
  simp only [realEntries]
  rw [List.filter_cons_of_neg]
  simpa using he

/-- The loop of `Next` reads only `dirname` and `end` of the iterator. -/
theorem posix_NextLoop_congr (it it2 : DirIterPrivate) (hd : it.dirname = it2.dirname)
    (he : it.atEnd = it2.atEnd) (pending : List String) :
    Posix.DirIter.NextLoop it pending = Posix.DirIter.NextLoop it2 pending := by
  induction pending with
  | nil => simp [Posix.DirIter.NextLoop, hd]
  | cons e rest ih =>
    by_cases hreal : e ≠ "." ∧ e ≠ ".."
    · simp [Posix.DirIter.NextLoop, hreal, hd, he]
    · simp [Posix.DirIter.NextLoop, hreal, ih]

theorem posix_forLoop_exhausted (d : String) (fuel : Nat) :
    Posix.forLoop (fuel + 1) (posixExhausted d) = some ([], posixExhausted d) := by
  simp [Posix.forLoop, posixExhausted, DirIter.operatorNe, DirIter.DirIter]

theorem posix_forLoop_step (d n : String) (pending : List String) (fuel : Nat) :
    Posix.forLoop (fuel + 1)
        { dirname := d, current := n, handle := .stream pending, atEnd := false }
      = match Posix.forLoop fuel (Posix.DirIter.NextLoop
            { dirname := d, current := n, handle := .stream [], atEnd := false } pending) with
        | none => none
        | some (yielded, last) => some ((d ++ "/" ++ n) :: yielded, last) := by
  rw [Posix.forLoop]
  simp only [DirIter.operatorNe, DirIter.DirIter, Posix.DirIter.operatorInc, Posix.DirIter.Next,
    posix_operatorStar_eq]
  rw [posix_NextLoop_congr
    { dirname := d, current := n, handle := .stream pending, atEnd := false }
    { dirname := d, current := n, handle := .stream [], atEnd := false } rfl rfl]
  simp

theorem posix_forLoop_positioned (d : String) :
    ∀ (pending : List String) (n : String) (fuel : Nat), pending.length + 1 < fuel →
      Posix.forLoop fuel { dirname := d, current := n, handle := .stream pending, atEnd := false }
        = some ((d ++ "/" ++ n) :: (realEntries pending).map (fun m => d ++ "/" ++ m),
                posixExhausted d) := by
  intro pending
  induction pending with
  | nil =>
    intro n fuel hfuel
    obtain ⟨k, rfl⟩ : ∃ k, fuel = k + 2 := ⟨fuel - 2, by simp at hfuel; omega⟩
    have hx := posix_forLoop_exhausted d k
    rw [posix_forLoop_step]
    simp only [Posix.DirIter.NextLoop]
    simp only [posixExhausted] at hx
    simp [hx, realEntries, posixExhausted]
  | cons e rest ih =>
    intro n fuel hfuel
    obtain ⟨k, rfl⟩ : ∃ k, fuel = k + 1 := ⟨fuel - 1, by omega⟩
    have hk : rest.length + 1 < k := by simp at hfuel; omega
    by_cases he : e ≠ "." ∧ e ≠ ".."
    · have hstep := ih e k hk
      rw [posix_forLoop_step]
      rw [Posix.DirIter.NextLoop, if_pos he, hstep, realEntries_cons_of_real e rest he]
      simp
    · have hstep := ih n (k + 1) (by omega)
      rw [realEntries_cons_of_dot e rest he, ← hstep, posix_forLoop_step, posix_forLoop_step,
        Posix.DirIter.NextLoop, if_neg he]

/-- C1 (POSIX branch): when `opendir d` opens a stream that returns the entry
names `raw`, the loop `for (DirIter it(d); it != DirIter(); ++it) yield *it`
terminates with any fuel above `raw.length`, yields exactly `d ++ "/" ++ n` for
the entries `n` of `raw` other than `.` and `..`, in stream order, and stops on
an exhausted iterator, for which `it != DirIter()` is false. -/
theorem posix_enumerate_yields_real_entries (opendir : String → Option (List String))
    (d : String) (raw : List String) (fuel : Nat)
    (hopen : opendir d = some raw) (hfuel : raw.length < fuel) :
    ∃ last : DirIterPrivate,
      Posix.enumerate opendir d fuel
          = some ((raw.filter (fun n => n ≠ "." ∧ n ≠ "..")).map (fun n => d ++ "/" ++ n), last)
        ∧ DirIter.operatorNe last DirIter.DirIter = false
        ∧ last.atEnd = true ∧ last.current = "" := by
  refine ⟨posixExhausted d, ?_, by simp [DirIter.operatorNe, DirIter.DirIter, posixExhausted],
    by simp [posixExhausted], by simp [posixExhausted]⟩
  simp only [Posix.enumerate, Posix.DirIter.DirIter, hopen, Posix.DirIter.Next]
  change _ = some ((realEntries raw).map (fun n => d ++ "/" ++ n), posixExhausted d)
  clear hopen
  induction raw with
  | nil =>
    obtain ⟨k, rfl⟩ : ∃ k, fuel = k + 1 := ⟨fuel - 1, by simp at hfuel; omega⟩
    simpa [Posix.DirIter.NextLoop, realEntries, posixExhausted] using
      posix_forLoop_exhausted d k
  | cons e rest ih =>
    by_cases he : e ≠ "." ∧ e ≠ ".."
    · have hstep := posix_forLoop_positioned d rest e fuel (by simpa using hfuel)
      rw [Posix.DirIter.NextLoop, if_pos he, hstep, realEntries_cons_of_real e rest he]
      simp
    · have hrec := ih (by simp at hfuel; omega)
      rw [realEntries_cons_of_dot e rest he, ← hrec, Posix.DirIter.NextLoop, if_neg he,
        posix_NextLoop_congr
          { dirname := d, current := "", handle := .stream (e :: rest), atEnd := false }
          { dirname := d, current := "", handle := .stream rest, atEnd := false } rfl rfl]

/-- C1, at a concrete directory: the stream `.`, `..`, `x`, `y` of `dir` with
fuel 5. -/
theorem posix_enumerate_yields_real_entries_witness :
    (sampleOpendir "dir" = some [".", "..", "x", "y"] ∧ [".", "..", "x", "y"].length < 5)
      ∧ ∃ last : DirIterPrivate,
        Posix.enumerate sampleOpendir "dir" 5
            = some (([".", "..", "x", "y"].filter (fun n => n ≠ "." ∧ n ≠ "..")).map
                (fun n => "dir" ++ "/" ++ n), last)
          ∧ DirIter.operatorNe last DirIter.DirIter = false
          ∧ last.atEnd = true ∧ last.current = "" :=
  ⟨⟨by decide, by decide⟩,
    posix_enumerate_yields_real_entries sampleOpendir "dir" [".", "..", "x", "y"] 5
      (by decide) (by decide)⟩

/-- C2, counterexample: two positioned iterators (neither has `end` set)
compare equal, that is `a != b` returns false. -/
theorem operatorNe_two_positioned_false :
    positionedOnX.atEnd = false ∧ positionedOnY.atEnd = false
      ∧ DirIter.operatorNe positionedOnX positionedOnY = false
      ∧ ¬ (DirIter.operatorNe positionedOnX positionedOnY = false
            ↔ (positionedOnX.atEnd = true ∧ positionedOnY.atEnd = true)) := by
  decide

/-- C2, amended: `a != b` returns false exactly when the two `end` flags are
equal (both iterators exhausted, or both positioned), and true exactly when
they differ. -/
theorem operatorNe_false_iff_same_end (a b : DirIterPrivate) :
    (DirIter.operatorNe a b = false ↔ a.atEnd = b.atEnd)
      ∧ (DirIter.operatorNe a b = true ↔ a.atEnd ≠ b.atEnd) := by
  cases ha : a.atEnd <;> cases hb : b.atEnd <;> simp [DirIter.operatorNe, ha, hb]

/-- C4: when opening the directory fails (POSIX: `opendir` returns null;
Windows: the path is empty or `FindFirstFileA` returns `INVALID_HANDLE_VALUE`)
the constructor returns an iterator with `end` set and an empty current name,
`DirIter(p) != DirIter()` is false, and the iteration loop yields nothing. -/
theorem construction_failure_is_exhausted
    (opendir : String → Option (List String))
    (FindFirstFileA : String → Option (String × List String))
    (p q : String) (fuel : Nat)
    (hposix : opendir p = none)
    (hwin : q = "" ∨ FindFirstFileA (Windows.dirpath q) = none) :
    (∃ it : DirIterPrivate, Posix.DirIter.DirIter opendir p = some it
        ∧ it.atEnd = true ∧ it.current = ""
        ∧ DirIter.operatorNe it DirIter.DirIter = false
        ∧ Posix.enumerate opendir p (fuel + 1) = some ([], it))
      ∧ (∃ it : DirIterPrivate, Windows.DirIter.DirIter FindFirstFileA fuel q = some it
        ∧ it.atEnd = true ∧ it.current = ""
        ∧ DirIter.operatorNe it DirIter.DirIter = false
        ∧ Windows.forLoop (fuel + 1) it = some ([], it)) := by
  constructor
  · refine ⟨{ dirname := p, current := "", handle := .nullptr, atEnd := true }, ?_, rfl, rfl,
      ?_, ?_⟩
    · simp [Posix.DirIter.DirIter, hposix]
    · simp [DirIter.operatorNe, DirIter.DirIter]
    · simp [Posix.enumerate, Posix.DirIter.DirIter, hposix, Posix.forLoop, DirIter.operatorNe,
        DirIter.DirIter]
  · by_cases hq : q.isEmpty
    · refine ⟨{ dirname := q, current := "", handle := .uninitialized, atEnd := true }, ?_,
        rfl, rfl, ?_, ?_⟩
      · simp [Windows.DirIter.DirIter, hq]
      · simp [DirIter.operatorNe, DirIter.DirIter]
      · simp [Windows.forLoop, DirIter.operatorNe, DirIter.DirIter]
    · refine ⟨{ dirname := q, current := "", handle := .nullptr, atEnd := true }, ?_, rfl, rfl,
        ?_, ?_⟩
      · have hne : q ≠ "" := by
          intro h
          exact hq (by rw [h]; rfl)
        have hfail : FindFirstFileA (Windows.dirpath q) = none := by
          rcases hwin with h | h
          · exact absurd h hne
          · exact h
        simp [Windows.DirIter.DirIter, hq, hfail, Windows.DirIter.openLoop]
      · simp [DirIter.operatorNe, DirIter.DirIter]
      · simp [Windows.forLoop, DirIter.operatorNe, DirIter.DirIter]

/-- C4, at concrete inputs: a missing directory on both branches. -/
theorem construction_failure_is_exhausted_witness :
    (sampleOpendir "missing" = none
        ∧ ("missing" = "" ∨ failingFindFirstFileA (Windows.dirpath "missing") = none))
      ∧ ((∃ it : DirIterPrivate, Posix.DirIter.DirIter sampleOpendir "missing" = some it
          ∧ it.atEnd = true ∧ it.current = ""
          ∧ DirIter.operatorNe it DirIter.DirIter = false
          ∧ Posix.enumerate sampleOpendir "missing" (3 + 1) = some ([], it))
        ∧ (∃ it : DirIterPrivate,
            Windows.DirIter.DirIter failingFindFirstFileA 3 "missing" = some it
          ∧ it.atEnd = true ∧ it.current = ""
          ∧ DirIter.operatorNe it DirIter.DirIter = false
          ∧ Windows.forLoop (3 + 1) it = some ([], it))) :=
  ⟨⟨by decide, Or.inr rfl⟩,
    construction_failure_is_exhausted sampleOpendir failingFindFirstFileA "missing" "missing" 3
      (by decide) (Or.inr rfl)⟩

/-- C5, counterexample: the attribute query fails with
`ERROR_SHARING_VIOLATION` and `exists` returns true. -/
theorem exists_true_on_sharing_violation :
    lockedFile.GetFileAttributesA "C:\\pagefile.sys" = 0xFFFFFFFF
      ∧ Windows.toInt32 (lockedFile.attributesLastError "C:\\pagefile.sys")
          = Windows.ERROR_SHARING_VIOLATION
      ∧ Windows.exists_ lockedFile "C:\\pagefile.sys" = true := by
  decide

theorem process_status_failure_iff (e : Nat) :
    Windows.process_status_failure e = true
      ↔ Windows.toInt32 e = Windows.ERROR_SHARING_VIOLATION := by
  unfold Windows.process_status_failure
  constructor
  · intro h
    by_cases hnf : Windows.not_found_error (Windows.toInt32 e) = true
    · simp [hnf] at h
    · by_cases hs : Windows.toInt32 e = Windows.ERROR_SHARING_VIOLATION
      · exact hs
      · simp [hnf, hs] at h
  · intro h
    simp only [h]
    decide

/-- C5, amended: when the attribute query fails, `exists` returns true exactly
for the error code `ERROR_SHARING_VIOLATION` and false for every other code:
for the whole not-found class, and for codes outside it such as
`ERROR_ACCESS_DENIED` and `ERROR_IO_DEVICE`. -/
theorem exists_on_failed_query (os : Windows.Win32) (path : String)
    (hfail : os.GetFileAttributesA path % 2 ^ 32 = 0xFFFFFFFF) :
    (Windows.exists_ os path = true
        ↔ Windows.toInt32 (os.attributesLastError path) = Windows.ERROR_SHARING_VIOLATION)
      ∧ (Windows.not_found_error (Windows.toInt32 (os.attributesLastError path)) = true
          → Windows.exists_ os path = false)
      ∧ (Windows.toInt32 (os.attributesLastError path) = Windows.ERROR_ACCESS_DENIED
          → Windows.exists_ os path = false)
      ∧ (Windows.toInt32 (os.attributesLastError path) = Windows.ERROR_IO_DEVICE
          → Windows.exists_ os path = false) := by
  have hex : Windows.exists_ os path
      = Windows.process_status_failure (os.attributesLastError path) := by
    simp only [Windows.exists_, Windows.internal_check_path]
    rw [if_pos hfail]
  refine ⟨?_, ?_, ?_, ?_⟩
  · rw [hex]
    exact process_status_failure_iff _
  · intro h
    rw [hex]
    simp [Windows.process_status_failure, h]
  · intro h
    rw [hex]
    simp only [Windows.process_status_failure, h]
    decide
  · intro h
    rw [hex]
    simp only [Windows.process_status_failure, h]
    decide

/-- C5, amended, at a concrete input: a query failing with
`ERROR_ACCESS_DENIED`. -/
theorem exists_on_failed_query_witness :
    deniedFile.GetFileAttributesA "C:\\secret" % 2 ^ 32 = 0xFFFFFFFF
      ∧ Windows.exists_ deniedFile "C:\\secret" = false := by
  have hfail : deniedFile.GetFileAttributesA "C:\\secret" % 2 ^ 32 = 0xFFFFFFFF := by decide
  exact ⟨hfail, (exists_on_failed_query deniedFile "C:\\secret" hfail).2.2.1 (by decide)⟩

/-- What `isDirectory` computes: besides a successful query of an entry with
the directory bit that is no reparse point or can be opened, it also answers
true whenever `process_status_failure` does, reading the directory bit of
whatever is in `attr`. -/
theorem isDirectory_eq_true_iff (os : Windows.Win32) (path : String) :
    Windows.isDirectory os path = true ↔
      (os.GetFileAttributesA path % 2 ^ 32 = 0xFFFFFFFF
          ∧ Windows.toInt32 (os.attributesLastError path) = Windows.ERROR_SHARING_VIOLATION)
        ∨ (os.GetFileAttributesA path % 2 ^ 32 ≠ 0xFFFFFFFF
          ∧ (os.GetFileAttributesA path % 2 ^ 32) &&& Windows.FILE_ATTRIBUTE_DIRECTORY ≠ 0
          ∧ ((os.GetFileAttributesA path % 2 ^ 32) &&& Windows.FILE_ATTRIBUTE_REPARSE_POINT ≠ 0 →
              os.create_file_handle path = true
                ∨ Windows.toInt32 (os.createFileLastError path)
                    = Windows.ERROR_SHARING_VIOLATION)) := by
  have hiff1 := process_status_failure_iff (os.attributesLastError path)
  have hiff2 := process_status_failure_iff (os.createFileLastError path)
  by_cases hfail : os.GetFileAttributesA path % 2 ^ 32 = 0xFFFFFFFF
  · have hicp : Windows.internal_check_path os path
        = (Windows.process_status_failure (os.attributesLastError path), 0xFFFFFFFF) := by
      simp only [Windows.internal_check_path]
      rw [if_pos hfail, hfail]
    have hbit : (0xFFFFFFFF : Nat) &&& Windows.FILE_ATTRIBUTE_DIRECTORY ≠ 0 := by decide
    have hfail2 : os.GetFileAttributesA path % 4294967296 = 4294967295 := hfail
    simp only [Windows.isDirectory, hicp]
    cases hps : Windows.process_status_failure (os.attributesLastError path)
    · have hne : ¬ Windows.toInt32 (os.attributesLastError path)
          = Windows.ERROR_SHARING_VIOLATION := by
        intro h
        rw [hiff1.mpr h] at hps
        cases hps
      simp [hne, hfail2]
    · have he := hiff1.mp hps
      simp [he, hbit, hfail2]
  · have hfail2 : ¬ os.GetFileAttributesA path % 4294967296 = 4294967295 := hfail
    by_cases hrp :
        (os.GetFileAttributesA path % 2 ^ 32) &&& Windows.FILE_ATTRIBUTE_REPARSE_POINT = 0
    · have hicp : Windows.internal_check_path os path
          = (true, os.GetFileAttributesA path % 2 ^ 32) := by
        simp only [Windows.internal_check_path]
        rw [if_neg hfail, if_neg (by simpa using hrp)]
      have hrp2 : (os.GetFileAttributesA path % 4294967296)
          &&& Windows.FILE_ATTRIBUTE_REPARSE_POINT = 0 := hrp
      simp [Windows.isDirectory, hicp, hfail2, hrp2]
    · have hrp2 : ¬ (os.GetFileAttributesA path % 4294967296)
          &&& Windows.FILE_ATTRIBUTE_REPARSE_POINT = 0 := hrp
      cases hopen : os.create_file_handle path
      · have hicp : Windows.internal_check_path os path
            = (Windows.process_status_failure (os.createFileLastError path),
                os.GetFileAttributesA path % 2 ^ 32) := by
          simp only [Windows.internal_check_path]
          rw [if_neg hfail, if_pos hrp, hopen]
          simp
        simp only [Windows.isDirectory, hicp]
        cases hps : Windows.process_status_failure (os.createFileLastError path)
        · have hne : ¬ Windows.toInt32 (os.createFileLastError path)
              = Windows.ERROR_SHARING_VIOLATION := by
            intro h
            rw [hiff2.mpr h] at hps
            cases hps
          simp [hfail2, hrp2, hne]
        · have he := hiff2.mp hps
          simp [hfail2, hrp2, he]
      · have hicp : Windows.internal_check_path os path
            = (true, os.GetFileAttributesA path % 2 ^ 32) := by
          simp only [Windows.internal_check_path]
          rw [if_neg hfail, if_pos hrp, hopen]
          simp
        simp [Windows.isDirectory, hicp, hfail2]

/-- C6, the failing input: the attribute query fails with
`ERROR_SHARING_VIOLATION`, `internal_check_path` returns true and leaves the
failure value `0xFFFFFFFF` in `attr`, whose directory bit is set, so
`isDirectory` returns true for an entry whose attributes were never obtained. -/
theorem isDirectory_true_on_sharing_violation :
    lockedFile.GetFileAttributesA "C:\\pagefile.sys" = 0xFFFFFFFF
      ∧ Windows.internal_check_path lockedFile "C:\\pagefile.sys" = (true, 0xFFFFFFFF)
      ∧ Windows.isDirectory lockedFile "C:\\pagefile.sys" = true
      ∧ Windows.internal_check_path lockedLink "C:\\link" = (true, 0x410)
      ∧ Windows.isDirectory lockedLink "C:\\link" = true := by
  decide

/-- C7, the failing input: on the Windows branch `Next` takes the raw entry
`..` as the current entry and stays positioned. -/
theorem windows_Next_lands_on_dotdot :
    Windows.DirIter.operatorInc beforeDotDot
        = { dirname := "C:\\dir", current := "..", handle := .stream ["b.txt"], atEnd := false }
      ∧ (Windows.DirIter.operatorInc beforeDotDot).atEnd = false
      ∧ (Windows.DirIter.operatorInc beforeDotDot).current = ".." := by
  decide

/-- C8, the failing inputs: when the first raw entry that `FindFirstFileA`
returns for the pattern is `.` or `..`, the loop of the constructor calls
`FindFirstFileA` with the same pattern again and so never leaves: no amount of
fuel lets the constructor return. -/
theorem windows_constructor_never_returns
    (FindFirstFileA : String → Option (String × List String))
    (_in cFileName : String) (pending : List String) (fuel : Nat)
    (hne : _in.isEmpty = false)
    (hfirst : FindFirstFileA (Windows.dirpath _in) = some (cFileName, pending))
    (hdot : cFileName = "." ∨ cFileName = "..") :
    Windows.DirIter.DirIter FindFirstFileA fuel _in = none := by
  have hloop : ∀ n, Windows.DirIter.openLoop FindFirstFileA (Windows.dirpath _in) n
      (some (cFileName, pending)) = none := by
    intro n
    induction n with
    | zero => simp [Windows.DirIter.openLoop, hdot]
    | succ k ih => simp [Windows.DirIter.openLoop, hdot, hfirst, ih]
  simp [Windows.DirIter.DirIter, hne, hfirst, hloop]

/-- C8, at a concrete input: an ordinary directory, whose listing starts with
`.`, with fuel 1000. -/
theorem windows_constructor_never_returns_witness :
    ("C:\\dir".isEmpty = false
        ∧ ordinaryFindFirstFileA (Windows.dirpath "C:\\dir") = some (".", ["..", "a.txt"])
        ∧ ("." = "." ∨ "." = ".."))
      ∧ Windows.DirIter.DirIter ordinaryFindFirstFileA 1000 "C:\\dir" = none :=
  ⟨⟨by decide, rfl, Or.inl rfl⟩,
    windows_constructor_never_returns ordinaryFindFirstFileA "C:\\dir" "." ["..", "a.txt"] 1000
      (by decide) rfl (Or.inl rfl)⟩

theorem std_replace_roundtrip (s : List Char) (a b : Char) (hb : b ∉ s) :
    std_replace (std_replace s a b) b a = s := by
  induction s with
  | nil => rfl
  | cons c rest ih =>
    have hc : c ≠ b := fun h => hb (by simp [h])
    have hrest : b ∉ rest := fun h => hb (by simp [h])
    have ih2 := ih hrest
    simp only [std_replace] at ih2 ⊢
    rw [List.map_cons, List.map_cons, ih2]
    by_cases hca : c = a
    · simp [hca]
    · simp [hca, hc]

/-- C9: on the Windows branch `copyToUnixPath (copyFromUnixPath p) = p` for
every `p` without a backslash; on the POSIX branch both functions are the
identity, so the round trip holds for every string. -/
theorem copy_unix_path_roundtrip (p q : String) (hp : '\\' ∉ p.data) :
    copyToUnixPath .windows (copyFromUnixPath .windows p) = p
      ∧ copyFromUnixPath .posix q = q
      ∧ copyToUnixPath .posix q = q
      ∧ copyToUnixPath .posix (copyFromUnixPath .posix q) = q := by
  refine ⟨?_, rfl, rfl, rfl⟩
  have hsep : ¬ ('/' = preferred_separator .windows) := by decide
  simp only [copyToUnixPath, copyFromUnixPath, changeToUnixPath, changeFromUnixPath,
    if_neg hsep]
  apply String.ext
  exact std_replace_roundtrip p.data '/' (preferred_separator .windows) hp

/-- C9, at a concrete input: `/usr/local/lib` on the Windows branch. -/
theorem copy_unix_path_roundtrip_witness :
    '\\' ∉ "/usr/local/lib".data
      ∧ copyFromUnixPath .windows "/usr/local/lib" = "\\usr\\local\\lib"
      ∧ copyToUnixPath .windows (copyFromUnixPath .windows "/usr/local/lib") = "/usr/local/lib" :=
  ⟨by decide, by decide,
    (copy_unix_path_roundtrip "/usr/local/lib" "/usr/local/lib" (by decide)).1⟩

/-- C10: `separator p` is `p` followed by one platform separator: one
character longer, beginning with `p`, ending in the separator, and ending in
two separators when `p` already ends in one; on the POSIX branch
`separator "a" = "a/"` and `separator "a/" = "a//"`. -/
theorem separator_appends_one (pl : Platform) (p : String) :
    (separator pl p).data = p.data ++ [preferred_separator pl]
      ∧ (separator pl p).length = p.length + 1
      ∧ (separator pl p).data.take p.length = p.data
      ∧ (separator pl p).data.getLast? = some (preferred_separator pl)
      ∧ (∀ stem : List Char, p.data = stem ++ [preferred_separator pl] →
          (separator pl p).data = stem ++ [preferred_separator pl, preferred_separator pl])
      ∧ separator .posix "a" = "a/"
      ∧ separator .posix "a/" = "a//" := by
  have hdata : (separator pl p).data = p.data ++ [preferred_separator pl] := by
    simp [separator, String.push]
  refine ⟨hdata, ?_, ?_, ?_, ?_, by decide, by decide⟩
  · show (separator pl p).data.length = p.data.length + 1
    rw [hdata]
    simp
  · show (separator pl p).data.take p.data.length = p.data
    rw [hdata]
    simp
  · rw [hdata]
    simp
  · intro stem hstem
    rw [hdata, hstem]
    simp

/-- C10, at a concrete input: `a/` on the POSIX branch, which already ends in
the separator. -/
theorem separator_appends_one_witness :
    "a/".data = ['a'] ++ [preferred_separator .posix]
      ∧ (separator .posix "a/").data
          = ['a'] ++ [preferred_separator .posix, preferred_separator .posix] :=
  ⟨by decide, (separator_appends_one .posix "a/").2.2.2.2.1 ['a'] (by decide)⟩

/-- On a non-empty run of separators the loop of `basename` stops at the last
one and keeps the segment, or returns one separator if the segment is empty. -/
theorem basenameLoop_separators (sep : Char) :
    ∀ (l : List Char), l ≠ [] → (∀ c ∈ l, c = sep) → ∀ (lws : Bool) (bn : List Char),
      basenameLoop sep l lws bn = if bn.length = 0 then bn ++ [sep] else bn := by
  intro l
  induction l with
  | nil => intro h; exact absurd rfl h
  | cons c rest ih =>
    intro _ hall lws bn
    have hc : c = sep := hall c (by simp)
    cases rest with
    | nil => simp [basenameLoop, hc]
    | cons c2 rest2 =>
      have hrest := ih (by simp) (fun x hx => hall x (List.mem_cons_of_mem _ hx)) true bn
      rw [basenameLoop, if_pos hc]
      simpa using hrest

/-- Trailing separators leave a non-empty segment untouched. -/
theorem basenameLoop_trailing (sep : Char) (trail : List Char) (htrail : ∀ c ∈ trail, c = sep)
    (lws : Bool) (bn : List Char) (hbn : bn ≠ []) :
    basenameLoop sep trail lws bn = bn := by
  cases trail with
  | nil => simp [basenameLoop]
  | cons c rest =>
    rw [basenameLoop_separators sep (c :: rest) (by simp) htrail]
    have : bn.length ≠ 0 := by simpa using hbn
    simp [this]

/-- A non-empty run without separator is appended to the segment, which is
first cleared if a separator came just before. -/
theorem basenameLoop_run (sep : Char) :
    ∀ (run : List Char), run ≠ [] → (∀ c ∈ run, c ≠ sep) →
      ∀ (tail : List Char) (lws : Bool) (bn : List Char),
        basenameLoop sep (run ++ tail) lws bn
          = basenameLoop sep tail false ((if lws then [] else bn) ++ run) := by
  intro run
  induction run with
  | nil => intro h; exact absurd rfl h
  | cons c r ih =>
    intro _ hfree tail lws bn
    have hc : c ≠ sep := hfree c (by simp)
    rw [List.cons_append, basenameLoop, if_neg hc]
    cases r with
    | nil => simp
    | cons c2 r2 =>
      rw [ih (by simp) (fun x hx => hfree x (List.mem_cons_of_mem _ hx))]
      simp

/-- The loop of `basename` on a path split into a part that is empty or ends
in a separator, a non-empty separator-free run, and trailing separators. -/
theorem basenameLoop_split (sep : Char) (run trail : List Char) (hrun : run ≠ [])
    (hfree : ∀ c ∈ run, c ≠ sep) (htrail : ∀ c ∈ trail, c = sep) :
    ∀ (pre : List Char), (pre = [] ∨ pre.getLast? = some sep) →
      ∀ (lws : Bool) (bn : List Char),
        basenameLoop sep (pre ++ run ++ trail) lws bn
          = if pre = [] then (if lws then [] else bn) ++ run else run := by
  intro pre
  induction pre with
  | nil =>
    intro _ lws bn
    rw [List.nil_append, basenameLoop_run sep run hrun hfree, if_pos rfl]
    exact basenameLoop_trailing sep trail htrail false _ (by simp [hrun])
  | cons c pre2 ih =>
    intro hlast lws bn
    have hlast2 : pre2 = [] ∨ pre2.getLast? = some sep := by
      cases pre2 with
      | nil => exact Or.inl rfl
      | cons c2 pre3 =>
        right
        rcases hlast with h | h
        · exact absurd h (by simp)
        · simpa [List.getLast?_cons_cons] using h
    have hrest : (pre2 ++ run ++ trail).isEmpty = false := by
      cases pre2 <;> cases run <;> simp_all
    rw [if_neg (by simp)]
    by_cases hc : c = sep
    · rw [List.cons_append, List.cons_append, basenameLoop, if_pos hc, hrest]
      simp only [Bool.false_eq_true, if_false]
      rw [ih hlast2 true bn]
      simp
    · have hpre2 : pre2 ≠ [] := by
        intro h
        subst h
        rcases hlast with h | h
        · exact absurd h (by simp)
        · simp at h
          exact hc h
      rw [List.cons_append, List.cons_append, basenameLoop, if_neg hc, ih hlast2, if_neg hpre2]

/-- A path with a character other than the separator splits as in
`basenameLoop_split`. -/
theorem exists_split (sep : Char) :
    ∀ (p : List Char), (∃ c ∈ p, c ≠ sep) →
      ∃ pre run trail : List Char, p = pre ++ run ++ trail
        ∧ (pre = [] ∨ pre.getLast? = some sep) ∧ run ≠ []
        ∧ (∀ c ∈ run, c ≠ sep) ∧ (∀ c ∈ trail, c = sep) := by
  intro p
  induction p with
  | nil => intro ⟨c, hc, _⟩; simp at hc
  | cons a rest ih =>
    intro _
    by_cases hrest : ∃ c ∈ rest, c ≠ sep
    · obtain ⟨pre, run, trail, hp, hpre, hrun, hfree, htrail⟩ := ih hrest
      by_cases hnil : pre = []
      · subst hnil
        by_cases ha : a = sep
        · exact ⟨[a], run, trail, by simp [hp], Or.inr (by simp [ha]), hrun, hfree, htrail⟩
        · refine ⟨[], a :: run, trail, by simp [hp], Or.inl rfl, by simp, ?_, htrail⟩
          intro c hc
          rcases List.mem_cons.mp hc with h | h
          · exact h ▸ ha
          · exact hfree c h
      · refine ⟨a :: pre, run, trail, by simp [hp], Or.inr ?_, hrun, hfree, htrail⟩
        rcases hpre with h | h
        · exact absurd h hnil
        · cases pre with
          | nil => exact absurd rfl hnil
          | cons b pre2 => simpa [List.getLast?_cons_cons] using h
    · have hall : ∀ c ∈ rest, c = sep := by
        intro c hc
        by_contra hne
        exact hrest ⟨c, hc, hne⟩
      have ha : a ≠ sep := by
        intro h
        obtain ⟨c, hc, hne⟩ := ‹∃ c ∈ a :: rest, c ≠ sep›
        rcases List.mem_cons.mp hc with h2 | h2
        · exact hne (h2 ▸ h)
        · exact hne (hall c h2)
      refine ⟨[], [a], rest, by simp, Or.inl rfl, by simp, ?_, hall⟩
      intro c hc
      simp at hc
      exact hc ▸ ha

/-- C3: `basename` of the empty path is empty; of a non-empty path made of
separators only it is the one-character string of the separator; and of any
other path it is the maximal separator-free run that ends at the last
character other than the separator: the path splits as `pre ++ run ++ trail`
with `trail` all separators, `run` non-empty and free of separators and `pre`
empty or ending in a separator, and for every such split the result is `run`.
On the POSIX branch this gives `c`, `b`, `/`, the empty string and `noslash`
for `/a/b/c`, `/a/b/`, `/`, the empty string and `noslash`. -/
theorem basename_last_segment (pl : Platform) (p : String) :
    basename pl "" = ""
      ∧ (p ≠ "" → (∀ c ∈ p.data, c = preferred_separator pl) →
          basename pl p = String.mk [preferred_separator pl])
      ∧ ((∃ c ∈ p.data, c ≠ preferred_separator pl) →
          ∃ pre run trail : List Char, p.data = pre ++ run ++ trail
            ∧ (pre = [] ∨ pre.getLast? = some (preferred_separator pl)) ∧ run ≠ []
            ∧ (∀ c ∈ run, c ≠ preferred_separator pl)
            ∧ (∀ c ∈ trail, c = preferred_separator pl))
      ∧ (∀ pre run trail : List Char, p.data = pre ++ run ++ trail →
          (pre = [] ∨ pre.getLast? = some (preferred_separator pl)) → run ≠ [] →
          (∀ c ∈ run, c ≠ preferred_separator pl) →
          (∀ c ∈ trail, c = preferred_separator pl) →
          basename pl p = String.mk run
            ∧ ∀ c ∈ (basename pl p).data, c ≠ preferred_separator pl)
      ∧ basename .posix "/a/b/c" = "c"
      ∧ basename .posix "/a/b/" = "b"
      ∧ basename .posix "/" = "/"
      ∧ basename .posix "noslash" = "noslash" := by
  refine ⟨by cases pl <;> decide, ?_, exists_split _ p.data, ?_, by decide, by decide,
    by decide, by decide⟩
  · intro hne hall
    have hdata : p.data ≠ [] := by
      intro h
      apply hne
      apply String.ext
      simpa using h
    simp only [basename]
    rw [basenameLoop_separators _ p.data hdata hall]
    simp
  · intro pre run trail hsplit hpre hrun hfree htrail
    have hres : basename pl p = String.mk run := by
      simp only [basename]
      rw [hsplit, basenameLoop_split _ run trail hrun hfree htrail pre hpre]
      by_cases h : pre = [] <;> simp [h]
    refine ⟨hres, ?_⟩
    rw [hres]
    exact hfree

/-- C3, at a concrete input: `/a/b//` on the POSIX branch splits into `/a/`,
`b` and `//`. -/
theorem basename_last_segment_witness :
    ("/a/b//".data = ['/', 'a', '/'] ++ ['b'] ++ ['/', '/'])
      ∧ basename .posix "/a/b//" = "b"
      ∧ basename .posix "///" = "/" :=
  ⟨by decide,
    ((basename_last_segment .posix "/a/b//").2.2.2.1 ['/', 'a', '/'] ['b'] ['/', '/']
      (by decide) (by decide) (by decide) (by decide) (by decide)).1,
    (basename_last_segment .posix "///").2.1 (by decide) (by decide)⟩

/-- On a non-empty run of separators the specification's scan, started with an
empty segment, gives the single separator. -/
theorem specScanLoop_separators (sep : Char) :
    ∀ (l : List Char), l ≠ [] → (∀ c ∈ l, c = sep) → specScanLoop sep l [] = [sep] := by
  intro l
  induction l with
  | nil => intro h; exact absurd rfl h
  | cons c rest ih =>
    intro _ hall
    have hc : c = sep := hall c (by simp)
    cases rest with
    | nil => simp [specScanLoop, hc]
    | cons c2 rest2 =>
      have hrest := ih (by simp) (fun x hx => hall x (List.mem_cons_of_mem _ hx))
      rw [specScanLoop, if_pos hc]
      simpa using hrest

/-- The specification's scan appends a run without separator to the segment. -/
theorem specScanLoop_run (sep : Char) :
    ∀ (run : List Char), (∀ c ∈ run, c ≠ sep) → ∀ (tail segment : List Char),
      specScanLoop sep (run ++ tail) segment = specScanLoop sep tail (segment ++ run) := by
  intro run
  induction run with
  | nil => intro _ tail segment; simp
  | cons c r ih =>
    intro hfree tail segment
    have hc : c ≠ sep := hfree c (by simp)
    rw [List.cons_append, specScanLoop, if_neg hc,
      ih (fun x hx => hfree x (List.mem_cons_of_mem _ hx))]
    simp

/-- On trailing separators the specification's scan keeps a non-empty segment
only if there is at most one of them; two or more give the single separator. -/
theorem specScanLoop_trailing (sep : Char) (trail : List Char)
    (htrail : ∀ c ∈ trail, c = sep) (segment : List Char) (hseg : segment ≠ []) :
    specScanLoop sep trail segment = if trail.length ≤ 1 then segment else [sep] := by
  cases trail with
  | nil => simp [specScanLoop]
  | cons t rest =>
    have ht : t = sep := htrail t (by simp)
    cases rest with
    | nil => simp [specScanLoop, ht, hseg]
    | cons t2 rest2 =>
      have hrest := specScanLoop_separators sep (t2 :: rest2) (by simp)
        (fun x hx => htrail x (List.mem_cons_of_mem _ hx))
      rw [specScanLoop, if_pos ht]
      simpa using hrest

/-- The specification's scan on a path split as in `basenameLoop_split`. -/
theorem specScanLoop_split (sep : Char) (run trail : List Char) (hrun : run ≠ [])
    (hfree : ∀ c ∈ run, c ≠ sep) (htrail : ∀ c ∈ trail, c = sep) :
    ∀ (pre : List Char), (pre = [] ∨ pre.getLast? = some sep) →
      ∀ (segment : List Char),
        specScanLoop sep (pre ++ run ++ trail) segment
          = if trail.length ≤ 1 then (if pre = [] then segment else []) ++ run else [sep] := by
  intro pre
  induction pre with
  | nil =>
    intro _ segment
    rw [List.nil_append, specScanLoop_run sep run hfree, if_pos rfl]
    exact specScanLoop_trailing sep trail htrail _ (by simp [hrun])
  | cons c pre2 ih =>
    intro hlast segment
    have hlast2 : pre2 = [] ∨ pre2.getLast? = some sep := by
      cases pre2 with
      | nil => exact Or.inl rfl
      | cons c2 pre3 =>
        right
        rcases hlast with h | h
        · exact absurd h (by simp)
        · simpa [List.getLast?_cons_cons] using h
    have hrest : (pre2 ++ run ++ trail).isEmpty = false := by
      cases pre2 <;> cases run <;> simp_all
    rw [if_neg (List.cons_ne_nil c pre2)]
    by_cases hc : c = sep
    · rw [List.cons_append, List.cons_append, specScanLoop, if_pos hc, hrest]
      simp only [Bool.false_eq_true, if_false]
      rw [ih hlast2 []]
      simp
    · have hpre2 : pre2 ≠ [] := by
        intro h
        subst h
        rcases hlast with h | h
        · exact absurd h (by simp)
        · simp at h
          exact hc h
      rw [List.cons_append, List.cons_append, specScanLoop, if_neg hc, ih hlast2, if_neg hpre2]

/-- A run without separator does not end in a separator. -/
theorem run_append_ne (sep : Char) (run : List Char) (hrun : run ≠ [])
    (hfree : ∀ c ∈ run, c ≠ sep) (pre stem : List Char) :
    pre ++ run ≠ stem ++ [sep] := by
  intro h
  rcases List.eq_nil_or_concat run with hnil | ⟨init, x, hx⟩
  · exact hrun hnil
  · rw [List.concat_eq_append] at hx
    have hxs : x ≠ sep := hfree x (by simp [hx])
    rw [hx, ← List.append_assoc] at h
    have := List.append_inj_right' h rfl
    simp at this
    exact hxs this

/-- A split path ends in two separators exactly when at least two separators
trail the run. -/
theorem split_ends_in_two_iff (sep : Char) (pre run trail : List Char) (hrun : run ≠ [])
    (hfree : ∀ c ∈ run, c ≠ sep) (htrail : ∀ c ∈ trail, c = sep) :
    (∃ stem : List Char, pre ++ run ++ trail = stem ++ [sep, sep]) ↔ 2 ≤ trail.length := by
  constructor
  · rintro ⟨stem, h⟩
    cases trail with
    | nil =>
      exfalso
      rw [List.append_nil] at h
      exact run_append_ne sep run hrun hfree pre (stem ++ [sep]) (by simpa using h)
    | cons t rest =>
      cases rest with
      | nil =>
        exfalso
        have h2 : (pre ++ run) ++ [t] = (stem ++ [sep]) ++ [sep] := by simpa using h
        exact run_append_ne sep run hrun hfree pre stem (List.append_inj_left' h2 rfl)
      | cons t2 rest2 => simp
  · intro hlen
    obtain ⟨n, hn⟩ : ∃ n, trail.length = n + 2 := ⟨trail.length - 2, by omega⟩
    have hrep : trail = List.replicate (n + 2) sep := by
      rw [← hn]
      exact List.eq_replicate_length.mpr htrail
    refine ⟨pre ++ run ++ List.replicate n sep, ?_⟩
    rw [hrep, List.replicate_succ', List.replicate_succ']
    simp

/-- Both scans on a split path: the code returns the run, the specification's
scan returns it only if at most one separator trails it. -/
theorem scans_on_split (pl : Platform) (p : String) (pre run trail : List Char)
    (hsplit : p.data = pre ++ run ++ trail)
    (hpre : pre = [] ∨ pre.getLast? = some (preferred_separator pl)) (hrun : run ≠ [])
    (hfree : ∀ c ∈ run, c ≠ preferred_separator pl)
    (htrail : ∀ c ∈ trail, c = preferred_separator pl) :
    basename pl p = String.mk run
      ∧ specScan pl p
          = String.mk (if trail.length ≤ 1 then run else [preferred_separator pl]) := by
  constructor
  · simp only [basename]
    rw [hsplit, basenameLoop_split _ run trail hrun hfree htrail pre hpre]
    by_cases h : pre = [] <;> simp [h]
  · simp only [specScan]
    rw [hsplit, specScanLoop_split _ run trail hrun hfree htrail pre hpre]
    by_cases h : pre = [] <;> simp [h]

/-- C11, counterexample: on the POSIX branch `basename` of `a//` is `a`, while
the scan of the specification resets the segment at the first of the two
separators and gives `/`. -/
theorem basename_differs_from_specScan :
    basename .posix "a//" = "a"
      ∧ specScan .posix "a//" = "/"
      ∧ basename .posix "a//" ≠ specScan .posix "a//"
      ∧ basename .posix "/a/b//" = "b"
      ∧ specScan .posix "/a/b//" = "/" := by
  decide

/-- C11, amended: `basename p` equals the result of the specification's scan
exactly when `p` consists of separators only or does not end in two
separators. When `p` has a character other than the separator and ends in two
or more separators, the scan gives the single separator, whereas `basename p`
is the separator-free run before the trailing separators: the code clears the
segment only when a character other than the separator follows a separator. -/
theorem basename_eq_specScan_iff (pl : Platform) (p : String) :
    (basename pl p = specScan pl p ↔
        ¬ ((∃ c ∈ p.data, c ≠ preferred_separator pl)
            ∧ ∃ stem : List Char,
                p.data = stem ++ [preferred_separator pl, preferred_separator pl]))
      ∧ ((∃ c ∈ p.data, c ≠ preferred_separator pl) →
          (∃ stem : List Char,
              p.data = stem ++ [preferred_separator pl, preferred_separator pl]) →
          specScan pl p = String.mk [preferred_separator pl]
            ∧ ∃ pre run trail : List Char, p.data = pre ++ run ++ trail
                ∧ (pre = [] ∨ pre.getLast? = some (preferred_separator pl)) ∧ run ≠ []
                ∧ (∀ c ∈ run, c ≠ preferred_separator pl)
                ∧ (∀ c ∈ trail, c = preferred_separator pl) ∧ 2 ≤ trail.length
                ∧ basename pl p = String.mk run) := by
  by_cases hns : ∃ c ∈ p.data, c ≠ preferred_separator pl
  · obtain ⟨pre, run, trail, hsplit, hpre, hrun, hfree, htrail⟩ := exists_split _ p.data hns
    obtain ⟨hb, hs⟩ := scans_on_split pl p pre run trail hsplit hpre hrun hfree htrail
    have htwo := split_ends_in_two_iff (preferred_separator pl) pre run trail hrun hfree htrail
    rw [← hsplit] at htwo
    have hrunsep : run ≠ [preferred_separator pl] := by
      intro h
      exact hfree (preferred_separator pl) (by simp [h]) rfl
    constructor
    · by_cases hlen : trail.length ≤ 1
      · rw [if_pos hlen] at hs
        have hno : ¬ ∃ stem : List Char,
            p.data = stem ++ [preferred_separator pl, preferred_separator pl] := by
          intro h
          have := htwo.mp h
          omega
        constructor
        · intro _ h
          exact hno h.2
        · intro _
          rw [hb, hs]
      · rw [if_neg hlen] at hs
        constructor
        · intro h
          rw [hb, hs] at h
          exact absurd (congrArg String.data h) hrunsep
        · intro h
          exact absurd ⟨hns, htwo.mpr (by omega)⟩ h
    · intro _ hends
      have hlen : 2 ≤ trail.length := htwo.mp hends
      rw [if_neg (by omega)] at hs
      exact ⟨hs, pre, run, trail, hsplit, hpre, hrun, hfree, htrail, hlen, hb⟩
  · have hall : ∀ c ∈ p.data, c = preferred_separator pl := by
      intro c hc
      by_contra hne
      exact hns ⟨c, hc, hne⟩
    refine ⟨⟨fun _ h => hns h.1, fun _ => ?_⟩, fun h => absurd h hns⟩
    simp only [basename, specScan]
    by_cases hnil : p.data = []
    · rw [hnil]
      rfl
    · rw [basenameLoop_separators _ p.data hnil hall, specScanLoop_separators _ p.data hnil hall]
      simp

/-- C11, amended, at concrete inputs: `/a/b/` does not end in two separators and
both scans give `b`; `/a/b//` does, and the results differ. -/
theorem basename_eq_specScan_iff_witness :
    (¬ ((∃ c ∈ "/a/b/".data, c ≠ preferred_separator .posix)
          ∧ ∃ stem : List Char,
              "/a/b/".data = stem ++ [preferred_separator .posix, preferred_separator .posix])
        ∧ basename .posix "/a/b/" = specScan .posix "/a/b/")
      ∧ ((∃ c ∈ "/a/b//".data, c ≠ preferred_separator .posix)
        ∧ (∃ stem : List Char,
              "/a/b//".data = stem ++ [preferred_separator .posix, preferred_separator .posix])
        ∧ specScan .posix "/a/b//" = String.mk [preferred_separator .posix]) := by
  have hagree : basename .posix "/a/b/" = specScan .posix "/a/b/" := by decide
  have hnon : ∃ c ∈ "/a/b//".data, c ≠ preferred_separator .posix := ⟨'a', by decide, by decide⟩
  have hends : ∃ stem : List Char,
      "/a/b//".data = stem ++ [preferred_separator .posix, preferred_separator .posix] :=
    ⟨['/', 'a', '/', 'b'], by decide⟩
  exact ⟨⟨(basename_eq_specScan_iff .posix "/a/b/").1.mp hagree, hagree⟩,
    hnon, hends, ((basename_eq_specScan_iff .posix "/a/b//").2 hnon hends).1⟩

end ignition.common
